import Mathlib

/-!
Verification of the resilient acquisition core of tap-yahooquery:
a shallow embedding of helpers.py and client.py, with theorems about
the retry decorator, the paginated ticker fetcher, the in-memory
segment cache, the rate limiter, the crumb-refresh protocol and the
orchestrating fetch_all_tickers / fetch_specific_tickers entry points.
-/

namespace TapYahooQuery

/-- A table cell as produced by pandas read_html: either a missing value
(float NaN) or a string. -/
abbrev Cell := Option String

/-- Forward declaration of lowercasing is needed by nanLike; see strLower below. -/
def lowerData (s : String) : List Char :=
  s.data.map Char.toLower

/-- The case-insensitive (nan|none|infinity) match used by fix_empty_values. -/
def nanLike (s : String) : Bool :=
  lowerData s == "nan".data || lowerData s == "none".data ||
    lowerData s == "infinity".data

/-- fix_empty_values on a single cell: missing values and nan-like strings
become missing (the to_value default None). -/
def cleanCell (c : Cell) : Cell :=
  match c with
  | none => none
  | some s => if nanLike s then none else some s

/-- astype(str) on a cell of a read_html table: a missing cell is a float NaN
and stringifies to "nan". -/
def cellToStr (c : Cell) : String :=
  match c with
  | none => "nan"
  | some s => s

/-- astype(str) on an object column holding Python None: str(None) = "None".
This is the form taken by the fetch_pts_tickers ticker column. -/
def cellToStrObj (c : Cell) : String :=
  match c with
  | none => "None"
  | some s => s

/-- Boolean test that the first character list starts the second. -/
def isPrefixB : List Char → List Char → Bool
  | [], _ => true
  | _ :: _, [] => false
  | a :: as, b :: bs => a == b && isPrefixB as bs

/-- Boolean test that the first character list occurs contiguously in the second. -/
def isInfixB (pat : List Char) : List Char → Bool
  | [] => pat.isEmpty
  | b :: bs => isPrefixB pat (b :: bs) || isInfixB pat bs

/-- Python substring containment: the in operator on strings. -/
def strContains (hay pat : String) : Bool :=
  isInfixB pat.data hay.data

/-- Python str.upper for ASCII strings. -/
def strUpper (s : String) : String :=
  ⟨s.data.map Char.toUpper⟩

/-- Python str.lower for ASCII strings. -/
def strLower (s : String) : String :=
  ⟨lowerData s⟩

/-- Python str.endswith. -/
def endsWithB (s pat : String) : Bool :=
  isPrefixB pat.data.reverse s.data.reverse

/-- Python str.startswith. -/
def startsWithB (s pat : String) : Bool :=
  isPrefixB pat.data s.data

/-- Python str.strip: remove leading and trailing whitespace. -/
def stripB (s : String) : String :=
  ⟨((s.data.dropWhile Char.isWhitespace).reverse.dropWhile
      Char.isWhitespace).reverse⟩

/-- pandas drop_duplicates with keep=first, by the given key, carrying the
set of keys already emitted. -/
def dedupFirstAux {α κ : Type} [DecidableEq κ] (key : α → κ) :
    List α → List κ → List α
  | [], _ => []
  | x :: xs, seen =>
    if key x ∈ seen then dedupFirstAux key xs seen
    else x :: dedupFirstAux key xs (key x :: seen)

/-- pandas drop_duplicates with keep=first by the given key. -/
def dedupFirst {α κ : Type} [DecidableEq κ] (key : α → κ) (l : List α) : List α :=
  dedupFirstAux key l []

theorem mem_of_mem_dedupFirstAux {α κ : Type} [DecidableEq κ] (key : α → κ) :
    ∀ (l : List α) (seen : List κ) (x : α), x ∈ dedupFirstAux key l seen → x ∈ l := by
  intro l
  induction l with
  | nil => intro seen x h; simp [dedupFirstAux] at h
  | cons a as ih =>
    intro seen x h
    simp only [dedupFirstAux] at h
    by_cases hk : key a ∈ seen
    · rw [if_pos hk] at h
      exact List.mem_cons_of_mem a (ih seen x h)
    · rw [if_neg hk] at h
      rcases List.mem_cons.mp h with h | h
      · exact h ▸ List.mem_cons_self a as
      · exact List.mem_cons_of_mem a (ih _ x h)

theorem key_not_mem_of_mem_dedupFirstAux {α κ : Type} [DecidableEq κ] (key : α → κ) :
    ∀ (l : List α) (seen : List κ) (x : α), x ∈ dedupFirstAux key l seen →
      key x ∉ seen := by
  intro l
  induction l with
  | nil => intro seen x h; simp [dedupFirstAux] at h
  | cons a as ih =>
    intro seen x h
    simp only [dedupFirstAux] at h
    by_cases hk : key a ∈ seen
    · rw [if_pos hk] at h
      exact ih seen x h
    · rw [if_neg hk] at h
      rcases List.mem_cons.mp h with h | h
      · subst h; exact hk
      · intro hmem
        exact ih _ x h (List.mem_cons_of_mem _ hmem)

theorem keys_nodup_dedupFirstAux {α κ : Type} [DecidableEq κ] (key : α → κ) :
    ∀ (l : List α) (seen : List κ),
      (List.map key (dedupFirstAux key l seen)).Nodup := by
  intro l
  induction l with
  | nil => intro seen; simp [dedupFirstAux]
  | cons a as ih =>
    intro seen
    simp only [dedupFirstAux]
    by_cases hk : key a ∈ seen
    · rw [if_pos hk]; exact ih seen
    · rw [if_neg hk]
      simp only [List.map_cons, List.nodup_cons]
      refine ⟨?_, ih _⟩
      intro hmem
      rcases List.mem_map.mp hmem with ⟨y, hy, hkey⟩
      have hnot := key_not_mem_of_mem_dedupFirstAux key as _ y hy
      apply hnot
      rw [hkey]
      exact List.mem_cons_self _ _

theorem exists_mem_dedupFirstAux {α κ : Type} [DecidableEq κ] (key : α → κ) :
    ∀ (l : List α) (seen : List κ) (x : α), x ∈ l → key x ∉ seen →
      ∃ y, y ∈ dedupFirstAux key l seen ∧ key y = key x := by
  intro l
  induction l with
  | nil => intro seen x hx; simp at hx
  | cons a as ih =>
    intro seen x hx hns
    simp only [dedupFirstAux]
    by_cases hk : key a ∈ seen
    · rw [if_pos hk]
      rcases List.mem_cons.mp hx with rfl | hx
      · exact absurd hk hns
      · exact ih seen x hx hns
    · rw [if_neg hk]
      by_cases hke : key x = key a
      · exact ⟨a, List.mem_cons_self _ _, hke.symm⟩
      · rcases List.mem_cons.mp hx with rfl | hx
        · exact absurd rfl hke
        · rcases ih (key a :: seen) x hx (by
            intro hmem
            rcases List.mem_cons.mp hmem with h | h
            · exact hke h
            · exact hns h) with ⟨y, hy, hkey⟩
          exact ⟨y, List.mem_cons_of_mem _ hy, hkey⟩

theorem find?_of_mem_dedupFirstAux {α κ : Type} [DecidableEq κ] (key : α → κ) :
    ∀ (l : List α) (seen : List κ) (r : α), r ∈ dedupFirstAux key l seen →
      l.find? (fun x => decide (key x = key r)) = some r := by
  intro l
  induction l with
  | nil => intro seen r h; simp [dedupFirstAux] at h
  | cons a as ih =>
    intro seen r h
    simp only [dedupFirstAux] at h
    by_cases hk : key a ∈ seen
    · rw [if_pos hk] at h
      have hnr : key r ∉ seen := key_not_mem_of_mem_dedupFirstAux key as seen r h
      have hne : ¬ key a = key r := fun he => hnr (he ▸ hk)
      rw [List.find?_cons]
      simp only [hne, decide_False]
      exact ih seen r h
    · rw [if_neg hk] at h
      rcases List.mem_cons.mp h with rfl | h
      · rw [List.find?_cons]
        simp
      · have hnr := key_not_mem_of_mem_dedupFirstAux key as _ r h
        have hne : ¬ key a = key r := by
          intro he
          exact hnr (he ▸ List.mem_cons_self _ _)
        rw [List.find?_cons]
        simp only [hne, decide_False]
        exact ih _ r h

theorem mem_of_mem_dedupFirst {α κ : Type} [DecidableEq κ] (key : α → κ)
    (l : List α) (x : α) (h : x ∈ dedupFirst key l) : x ∈ l :=
  mem_of_mem_dedupFirstAux key l [] x h

theorem keys_nodup_dedupFirst {α κ : Type} [DecidableEq κ] (key : α → κ)
    (l : List α) : (List.map key (dedupFirst key l)).Nodup :=
  keys_nodup_dedupFirstAux key l []

theorem exists_mem_dedupFirst {α κ : Type} [DecidableEq κ] (key : α → κ)
    (l : List α) (x : α) (hx : x ∈ l) :
    ∃ y, y ∈ dedupFirst key l ∧ key y = key x :=
  exists_mem_dedupFirstAux key l [] x hx (by simp)

theorem find?_of_mem_dedupFirst {α κ : Type} [DecidableEq κ] (key : α → κ)
    (l : List α) (r : α) (h : r ∈ dedupFirst key l) :
    l.find? (fun x => decide (key x = key r)) = some r :=
  find?_of_mem_dedupFirstAux key l [] r h

/-!  RateLimitManager (helpers.py lines 21-43).  Time is modelled as ℚ seconds;
the per-key last-request map is a function state.  wait_if_needed captures
"now" at entry, sleeps the remaining fraction of min_delay if needed, and
stores the captured entry time in the map. -/

/-- min_delay of the RateLimitManager: 1.2 seconds. -/
def min_delay : ℚ := 6 / 5

/-- wait_if_needed: given the last-request map, a key, and the entry time,
returns the updated map and the time at which control returns to the caller
(entry time plus any sleep performed). -/
def wait_if_needed (st : String → Option ℚ) (key : String) (now : ℚ) :
    (String → Option ℚ) × ℚ :=
  let ret :=
    match st key with
    | some lastTime =>
      if now - lastTime < min_delay then now + (min_delay - (now - lastTime))
      else now
    | none => now
  (fun k => if k = key then some now else st k, ret)

/-- Example rate-limiter state: key X was last used at time 0. -/
def rlExSt : String → Option ℚ := fun k => if k = "X" then some 0 else none

/-- Claim C7, counterexample: with last-call time 0 for key X and an entry at
time 1/2, wait_if_needed sleeps until 6/5 and returns control at 6/5, but the
recorded last-call time is the entry time 1/2, not the return time 6/5. -/
theorem claim_c7_counterexample :
    (wait_if_needed rlExSt "X" (1 / 2)).2 = 6 / 5 ∧
    (wait_if_needed rlExSt "X" (1 / 2)).1 "X" = some (1 / 2) ∧
    some ((1 : ℚ) / 2) ≠ some ((6 : ℚ) / 5) := by
  refine ⟨?_, ?_, by norm_num⟩ <;> norm_num [wait_if_needed, rlExSt, min_delay]

/-- Claim C7, amended: wait_if_needed records the time observed at entry
(before any sleep) as the new last-call time for the key, and returns control
at max(now, lastTime + min_delay); time spent sleeping inside wait_if_needed
therefore does count toward the spacing demanded of the next call. -/
theorem claim_c7_records_entry_time (st : String → Option ℚ) (key : String)
    (now : ℚ) :
    ((wait_if_needed st key now).1 key = some now) ∧
    (∀ t, st key = some t →
      (wait_if_needed st key now).2 = max now (t + min_delay)) ∧
    (st key = none → (wait_if_needed st key now).2 = now) := by
  refine ⟨by simp [wait_if_needed], ?_, ?_⟩
  · intro t ht
    simp only [wait_if_needed, ht]
    by_cases h : now - t < min_delay
    · rw [if_pos h]
      have heq : now + (min_delay - (now - t)) = t + min_delay := by ring
      rw [heq, max_eq_right (by linarith : now ≤ t + min_delay)]
    · rw [if_neg h, max_eq_left (by linarith : t + min_delay ≤ now)]
  · intro h
    simp [wait_if_needed, h]

/-- Claim C7 witness: a concrete unconstrained call (entry at time 2, last call
at time 0) records the entry time 2 and returns immediately. -/
theorem claim_c7_witness :
    ((wait_if_needed rlExSt "X" 2).1 "X" = some 2) ∧
    (wait_if_needed rlExSt "X" 2).2 = max 2 (0 + min_delay) := by
  have h := claim_c7_records_entry_time rlExSt "X" 2
  exact ⟨h.1, h.2.1 0 rfl⟩

/-!  YahooQueryStream._fetch_with_crumb_retry (client.py lines 147-186).
The per-ticker method is modelled as a sequence of results indexed by
invocation number.  The redundant hasattr-guarded re-clearing in the source is
subsumed by the single close/clear events of the refresh cycle. -/

/-- Result of one yahooquery method invocation: a dict (with its str()
rendering, in which the sentinel may occur) or any non-dict payload. -/
inductive YqData : Type
  | dict (rendering : String)
  | frame (rows : List (List String))
deriving DecidableEq

/-- Detection of the invalid-authentication sentinel:
isinstance(data, dict) and "Invalid Crumb" in str(data). -/
def isInvalidCrumb (d : YqData) : Bool :=
  match d with
  | .dict s => strContains s "Invalid Crumb"
  | .frame _ => false

/-- Observable steps of _fetch_with_crumb_retry. -/
inductive FetchEvent : Type
  | invoke (callIdx : ℕ)
  | closeSession
  | clearCrumb
  | clearCookie
  | sleepSec (seconds : ℚ)
  | newClient
deriving DecidableEq

/-- _fetch_with_crumb_retry: invoke once; if the result signals an invalid
crumb, close the session, clear crumb and cookie, sleep 3 seconds, build a new
client and invoke exactly once more, returning that second result as-is. -/
def fetch_with_crumb_retry (calls : ℕ → YqData) : YqData × List FetchEvent :=
  let data := calls 0
  if isInvalidCrumb data then
    (calls 1,
      [.invoke 0, .closeSession, .clearCrumb, .clearCookie, .sleepSec 3,
       .newClient, .invoke 1])
  else
    (data, [.invoke 0])

/-- Claim C8: when the first result signals an invalid crumb, exactly one
refresh cycle (close, clear crumb, clear cookie, 3-second sleep, new client)
and exactly one re-invocation occur, and the second result is returned as-is;
otherwise the first result is returned with no refresh. -/
theorem claim_c8_crumb_refresh (calls : ℕ → YqData) :
    (isInvalidCrumb (calls 0) = true →
      (fetch_with_crumb_retry calls).1 = calls 1 ∧
      (fetch_with_crumb_retry calls).2 =
        [.invoke 0, .closeSession, .clearCrumb, .clearCookie, .sleepSec 3,
         .newClient, .invoke 1] ∧
      (fetch_with_crumb_retry calls).2.countP
        (fun e => decide (e = FetchEvent.newClient)) = 1 ∧
      (fetch_with_crumb_retry calls).2.countP
        (fun e => match e with | .invoke _ => true | _ => false) = 2) ∧
    (isInvalidCrumb (calls 0) = false →
      (fetch_with_crumb_retry calls).1 = calls 0 ∧
      (fetch_with_crumb_retry calls).2 = [.invoke 0]) := by
  constructor
  · intro h
    have heq : fetch_with_crumb_retry calls =
        (calls 1,
          [.invoke 0, .closeSession, .clearCrumb, .clearCookie, .sleepSec 3,
           .newClient, .invoke 1]) := by
      simp [fetch_with_crumb_retry, h]
    rw [heq]
    refine ⟨rfl, rfl, ?_, ?_⟩ <;> rfl
  · intro h
    have heq : fetch_with_crumb_retry calls = (calls 0, [.invoke 0]) := by
      simp [fetch_with_crumb_retry, h]
    rw [heq]
    exact ⟨rfl, rfl⟩

/-- Example upstream for the crumb retry: first call answers with the
invalid-crumb sentinel, second call answers with a valid payload. -/
def crumbExCalls : ℕ → YqData := fun n =>
  if n = 0 then .dict "Invalid Crumb" else .frame [["ok"]]

/-- Claim C8 witness: on the concrete upstream crumbExCalls the valid second
payload is returned after exactly one refresh cycle. -/
theorem claim_c8_witness :
    (fetch_with_crumb_retry crumbExCalls).1 = crumbExCalls 1 ∧
    (fetch_with_crumb_retry crumbExCalls).2.countP
      (fun e => decide (e = FetchEvent.newClient)) = 1 := by
  have h := (claim_c8_crumb_refresh crumbExCalls).1 (by decide)
  exact ⟨h.1, h.2.2.1⟩

/-!  TickerFetcher._guess_segment and fetch_specific_tickers
(helpers.py lines 288-366).  All string operations are the case-sensitive
Python ones; upper() and isupper() are modelled for ASCII strings. -/

/-- Well-known index-name fragments matched against ticker.upper(). -/
def indexPatterns : List String :=
  ["S&P", "DOW ", "NASDAQ ", "FTSE ", "CAC ", "DAX ", "OMX ", "STOXX ",
   "IBEX ", "AEX ", "BEL ", "TECDAX ", "SDAX ", "CDAX ", "MDAX ", "MOEX ",
   "NIKKEI ", "HANG ", "KOSPI ", "SENSEX ", "NIFTY "]

/-- Index-like numeric endings matched against the raw ticker. -/
def indexSuffixes : List String :=
  [" 20", " 25", " 30", " 35", " 40", " 50", " 60", " 100", " 200", " 250",
   " 500", " 600", " 1000", " 2000"]

/-- Python str.isupper for ASCII strings: at least one cased character and no
lowercase character. -/
def pyIsUpper (s : String) : Bool :=
  s.data.any (fun c => c.isAlpha) && s.data.all (fun c => !c.isLower)

/-- TickerFetcher._guess_segment on a string ticker. -/
def guess_segment (ticker : String) : String :=
  if endsWithB ticker "=X" then "forex_tickers"
  else if endsWithB ticker "=F" then "futures_tickers"
  else if strContains ticker "-" && endsWithB ticker "USD" then "crypto_tickers"
  else if startsWithB ticker "^"
      || indexPatterns.any (fun pat => strContains (strUpper ticker) pat)
      || indexSuffixes.any (fun suf => endsWithB ticker suf) then
    "world_indices_tickers"
  else if strContains ticker ".PVT" then "private_companies_tickers"
  else if strContains ticker "." && !(startsWithB ticker "^") then
    "foreign_stock_tickers"
  else if pyIsUpper ticker && ticker.data.length ≤ 5 then "stock_tickers"
  else "unknown"

/-- _guess_segment as applied by fetch_all_tickers to a possibly missing ticker
cell: the isinstance(ticker, str) guard sends non-strings to "unknown". -/
def guessSegmentCell : Cell → String
  | none => "unknown"
  | some s => guess_segment s

/-- A ticker record as emitted by the orchestrator:
dict with keys ticker, name, segment. -/
structure Record where
  ticker : String
  name : Option String
  segment : String
deriving DecidableEq

/-- TickerFetcher.fetch_specific_tickers: one record per input ticker in
order, ticker uppercased, name None, segment guessed from the original
(non-uppercased) string. -/
def fetch_specific_tickers (tickerList : List String) : List Record :=
  tickerList.map fun t =>
    { ticker := strUpper t, name := none, segment := guess_segment t }

/-- Claim C10: fetch_specific_tickers returns one record per input in order,
with ticker = input.upper() and name = None, but segment classified from the
original string; hence the lowercase spellings aapl and btc-usd are classified
unknown even though their uppercased tickers would classify as stock_tickers
and crypto_tickers. -/
theorem claim_c10_specific (l : List String) :
    (fetch_specific_tickers l).map Record.ticker = l.map strUpper ∧
    (∀ r ∈ fetch_specific_tickers l, r.name = none) ∧
    (∀ t ∈ l,
      ({ ticker := strUpper t, name := none, segment := guess_segment t } :
        Record) ∈ fetch_specific_tickers l) ∧
    fetch_specific_tickers ["aapl", "btc-usd"] =
      [{ ticker := "AAPL", name := none, segment := "unknown" },
       { ticker := "BTC-USD", name := none, segment := "unknown" }] ∧
    guess_segment "AAPL" = "stock_tickers" ∧
    guess_segment "BTC-USD" = "crypto_tickers" := by
  refine ⟨?_, ?_, ?_, by decide, by decide, by decide⟩
  · simp [fetch_specific_tickers]
  · intro r hr
    rcases List.mem_map.mp hr with ⟨t, _, rfl⟩
    rfl
  · intro t ht
    exact List.mem_map.mpr ⟨t, ht, rfl⟩

/-- Claim C10 witness: the general parts instantiated at the concrete input
list [aapl]. -/
theorem claim_c10_witness :
    (fetch_specific_tickers ["aapl"]).map Record.ticker =
      ["aapl"].map strUpper ∧
    ({ ticker := "AAPL", name := none, segment := guess_segment "aapl" } :
      Record) ∈ fetch_specific_tickers ["aapl"] := by
  have h := claim_c10_specific ["aapl"]
  refine ⟨h.1, ?_⟩
  have hm := h.2.2.1 "aapl" (by decide)
  have hu : strUpper "aapl" = "AAPL" := by decide
  rw [hu] at hm
  exact hm

/-!  yahoo_api_retry (helpers.py lines 52-148), built on backoff.on_exception
with backoff.expo(base=3, max_value=60), full jitter, max_tries=10 and
max_time=600.  wrapped_func converts every failing attempt (network errors,
rate-limit-looking errors, any other exception, and empty-DataFrame results
for concrete tickers) into a retryable exception, so one attempt is modelled
as either a returned DataFrame or a retryable failure.  Durations of the
attempts and the jitter draws are inputs; the elapsed clock is measured, as
in backoff, at the top of each loop iteration, before the attempt runs. -/

/-- A pandas DataFrame, reduced to its rows. -/
abbrev DFrame := List (List String)

/-- The empty DataFrame pd.DataFrame() returned on final failure. -/
def emptyDF : DFrame := []

/-- backoff.expo generator state: the exponent before the k-th yield.  The
exponent advances only while factor * base ^ n is below max_value. -/
def expoN (base factor maxValue : ℚ) : ℕ → ℕ
  | 0 => 0
  | k + 1 =>
    let n := expoN base factor maxValue k
    if factor * base ^ n < maxValue then n + 1 else n

/-- The k-th value yielded by backoff.expo(base, factor, max_value). -/
def expoValue (base factor maxValue : ℚ) (k : ℕ) : ℚ :=
  let a := factor * base ^ expoN base factor maxValue k
  if a < maxValue then a else maxValue

/-- backoff.full_jitter is random.uniform(0, v); the random draw is modelled
as r * v for a coefficient r in [0, 1]. -/
def fullJitter (r v : ℚ) : ℚ := r * v

/-- The retry loop of backoff.on_exception.  Arguments after maxTime: fuel
(bounds the recursion; instantiated with maxTries), the index of the current
attempt, and the elapsed clock at the top of the current iteration.  Returns
the final outcome (some payload, or none when the last retryable error is
re-raised on give-up) together with the list of loop-top clock values at which
the wrapped function was invoked.  A failure gives up when the attempt count
reaches max_tries or the elapsed clock has reached max_time; otherwise the
sleep is the jittered expo value, truncated to the remaining time budget. -/
def retryGo (out : ℕ → Option DFrame) (dur : ℕ → ℚ) (jit : ℕ → ℚ)
    (maxTries : ℕ) (maxTime : ℚ) : ℕ → ℕ → ℚ → Option DFrame × List ℚ
  | 0, _, _ => (none, [])
  | fuel + 1, i, elapsed =>
    match out i with
    | some df => (some df, [elapsed])
    | none =>
      if i + 1 = maxTries ∨ maxTime ≤ elapsed then (none, [elapsed])
      else
        let w := min (fullJitter (jit i) (expoValue 3 1 60 i))
          (maxTime - elapsed)
        let next := retryGo out dur jit maxTries maxTime fuel (i + 1)
          (elapsed + dur i + w)
        (next.1, elapsed :: next.2)

/-- The backoff.on_exception loop with the parameters used by
yahoo_api_retry: max_tries=10, max_time=600. -/
def yahoo_api_retry_run (out : ℕ → Option DFrame) (dur jit : ℕ → ℚ) :
    Option DFrame × List ℚ :=
  retryGo out dur jit 10 600 10 0 0

/-- safe_wrapper: any exception escaping the backoff loop is swallowed and an
empty DataFrame is returned. -/
def safe_wrapper (out : ℕ → Option DFrame) (dur jit : ℕ → ℚ) : DFrame :=
  match (yahoo_api_retry_run out dur jit).1 with
  | some df => df
  | none => emptyDF

theorem retryGo_length (out : ℕ → Option DFrame) (dur jit : ℕ → ℚ)
    (maxTries : ℕ) (maxTime : ℚ) :
    ∀ (fuel i : ℕ) (elapsed : ℚ),
      (retryGo out dur jit maxTries maxTime fuel i elapsed).2.length ≤ fuel := by
  intro fuel
  induction fuel with
  | zero => intro i elapsed; simp [retryGo]
  | succ fuel ih =>
    intro i elapsed
    simp only [retryGo]
    cases out i with
    | some df => simp
    | none =>
      by_cases h : i + 1 = maxTries ∨ maxTime ≤ elapsed
      · rw [if_pos h]; simp
      · rw [if_neg h]
        simp only [List.length_cons]
        exact Nat.succ_le_succ (ih _ _)

theorem retryGo_starts_le (out : ℕ → Option DFrame) (dur jit : ℕ → ℚ)
    (maxTries : ℕ) (maxTime : ℚ) (hd : ∀ j, dur j = 0) :
    ∀ (fuel i : ℕ) (elapsed : ℚ), elapsed ≤ maxTime →
      ∀ s ∈ (retryGo out dur jit maxTries maxTime fuel i elapsed).2,
        s ≤ maxTime := by
  intro fuel
  induction fuel with
  | zero => intro i elapsed _ s hs; simp [retryGo] at hs
  | succ fuel ih =>
    intro i elapsed he s hs
    simp only [retryGo] at hs
    cases hout : out i with
    | some df =>
      rw [hout] at hs
      simp at hs
      exact hs ▸ he
    | none =>
      rw [hout] at hs
      by_cases h : i + 1 = maxTries ∨ maxTime ≤ elapsed
      · rw [if_pos h] at hs
        simp at hs
        exact hs ▸ he
      · rw [if_neg h] at hs
        rcases List.mem_cons.mp hs with rfl | hs
        · exact he
        · refine ih (i + 1) _ ?_ s hs
          rw [hd i]
          have hmin : min (fullJitter (jit i) (expoValue 3 1 60 i))
              (maxTime - elapsed) ≤ maxTime - elapsed := min_le_right _ _
          linarith

/-- Claim C1: the yahoo_api_retry decorator invokes the wrapped function at
most max_tries = 10 times; on final exhaustion safe_wrapper returns the empty
DataFrame instead of propagating the error; and no invocation is started
after the 600-second max_time budget (exactly so when the attempts themselves
take no time, i.e. up to scheduler tolerance). -/
theorem claim_c1_retry_bounds (out : ℕ → Option DFrame) (dur jit : ℕ → ℚ) :
    (yahoo_api_retry_run out dur jit).2.length ≤ 10 ∧
    ((yahoo_api_retry_run out dur jit).1 = none →
      safe_wrapper out dur jit = emptyDF) ∧
    ((∀ j, dur j = 0) →
      ∀ s ∈ (yahoo_api_retry_run out dur jit).2, s ≤ 600) := by
  refine ⟨retryGo_length out dur jit 10 600 10 0 0, ?_, ?_⟩
  · intro h
    simp [safe_wrapper, h]
  · intro hd s hs
    exact retryGo_starts_le out dur jit 10 600 hd 10 0 0 (by norm_num) s hs

/-- Claim C1 witness: an upstream that always fails (with 600-second attempts
in the first instance, instantaneous attempts in the second) is invoked at
most ten times, the caller receives the empty DataFrame on exhaustion, and
with instantaneous attempts every invocation starts inside the 600-second
budget. -/
theorem claim_c1_witness :
    (yahoo_api_retry_run (fun _ => none) (fun _ => 600)
      (fun _ => 0)).2.length ≤ 10 ∧
    safe_wrapper (fun _ => none) (fun _ => 600) (fun _ => 0) = emptyDF ∧
    (0 : ℚ) ≤ 600 := by
  have h1 := claim_c1_retry_bounds (fun _ => none) (fun _ => 600) (fun _ => 0)
  have h2 := claim_c1_retry_bounds (fun _ => none) (fun _ => 0) (fun _ => 0)
  have hmem : (0 : ℚ) ∈ (yahoo_api_retry_run (fun _ => none) (fun _ => 0)
      (fun _ => 0)).2 := by
    norm_num [yahoo_api_retry_run, retryGo, fullJitter, min_def]
  refine ⟨h1.1, h1.2.1 ?_, h2.2.2 (fun j => rfl) 0 hmem⟩
  norm_num [yahoo_api_retry_run, retryGo, fullJitter, min_def]

theorem expoN_closed (k : ℕ) : expoN 3 1 60 k = min k 4 := by
  induction k with
  | zero => simp [expoN]
  | succ k ih =>
    simp only [expoN, ih]
    rcases lt_or_ge k 4 with hk | hk
    · have hc : (1 : ℚ) * 3 ^ min k 4 < 60 := by
        rw [min_eq_left (by omega : k ≤ 4)]
        interval_cases k <;> norm_num
      rw [if_pos hc]
      omega
    · have hc : ¬ (1 : ℚ) * 3 ^ min k 4 < 60 := by
        rw [min_eq_right (by omega : 4 ≤ k)]
        norm_num
      rw [if_neg hc]
      omega

theorem expoValue_closed (k : ℕ) :
    expoValue 3 1 60 k = if k ≤ 3 then (3 : ℚ) ^ k else 60 := by
  unfold expoValue
  rw [expoN_closed]
  rcases le_or_lt k 3 with hk | hk
  · rw [min_eq_left (by omega : k ≤ 4), if_pos hk]
    have hc : (1 : ℚ) * 3 ^ k < 60 := by interval_cases k <;> norm_num
    rw [if_pos hc]
    ring
  · rw [min_eq_right (by omega : 4 ≤ k), if_neg (by omega : ¬ k ≤ 3)]
    norm_num

/-- Claim C6, counterexample: at attempt 0 the computed backoff value is
3 ^ 0 = 1, not the claimed base * 2 ^ 0 = 3 (capped at 60), so the delay
formula base * 2 ^ n does not describe the code. -/
theorem claim_c6_counterexample :
    expoValue 3 1 60 0 = 1 ∧ expoValue 3 1 60 0 ≠ min ((3 : ℚ) * 2 ^ 0) 60 := by
  constructor <;> norm_num [expoValue, expoN]

/-- Claim C6, amended: the k-th backoff value follows backoff.expo with
base = 3 and factor = 1: it equals 3 ^ k while that is below the
max_value = 60 cap (that is, for k ≤ 3) and 60 from then on; full jitter then
draws the actual sleep uniformly between 0 and that value, so the sleep lies
in [0, value]. -/
theorem claim_c6_expo (k : ℕ) (r v : ℚ) (hr0 : 0 ≤ r) (hr1 : r ≤ 1)
    (hv : 0 ≤ v) :
    expoValue 3 1 60 k = (if k ≤ 3 then (3 : ℚ) ^ k else 60) ∧
    0 ≤ fullJitter r v ∧ fullJitter r v ≤ v := by
  refine ⟨expoValue_closed k, mul_nonneg hr0 hv, ?_⟩
  calc r * v ≤ 1 * v := mul_le_mul_of_nonneg_right hr1 hv
    _ = v := one_mul v

/-- Claim C6 witness: at attempt 5 the value is capped at 60, and a concrete
half-range jitter draw over value 4 lies in [0, 4]. -/
theorem claim_c6_witness :
    expoValue 3 1 60 5 = 60 ∧ 0 ≤ fullJitter (1 / 2) 4 ∧
    fullJitter (1 / 2) 4 ≤ 4 := by
  have h := claim_c6_expo 5 (1 / 2) 4 (by norm_num) (by norm_num) (by norm_num)
  refine ⟨?_, h.2.1, h.2.2⟩
  rw [h.1]
  norm_num

/-!  TickerFetcher.fetch_yahoo_tickers (helpers.py lines 368-486).  A network
response is the list of tables pandas read_html extracts from it; the pages
oracle gives the response of the i-th HTTP request of one invocation.  The
process-wide memory cache is threaded explicitly.  The returned triple on
success is (table, updated cache, number of HTTP requests issued). -/

/-- A raw table as parsed by pandas read_html: column labels and rows of
cells. -/
structure RawTable where
  cols : List String
  rows : List (List Cell)
deriving DecidableEq

/-- df.columns = [str(x).strip().lower() for x in df.columns]. -/
def lowerCols (t : RawTable) : RawTable :=
  { t with cols := t.cols.map (fun c => strLower (stripB c)) }

/-- df.rename(columns={old: new}). -/
def renameCol (t : RawTable) (oldName newName : String) : RawTable :=
  { t with cols := t.cols.map (fun c => if c = oldName then newName else c) }

/-- Both required key columns symbol and name are present. -/
def hasKeyCols (t : RawTable) : Bool :=
  t.cols.contains "symbol" && t.cols.contains "name"

/-- df[key_columns]: the (symbol, name) cell pair of every row. -/
def selectPairs (t : RawTable) : List (Cell × Cell) :=
  let si := t.cols.findIdx (fun c => c == "symbol")
  let ni := t.cols.findIdx (fun c => c == "name")
  t.rows.map (fun r => (r.getD si none, r.getD ni none))

/-- The ticker/name table returned by fetch_yahoo_tickers, after astype(str). -/
abbrev TickerTable := List (String × String)

/-- The process-wide memory cache, segment name to cached table, newest entry
first. -/
abbrev Cache := List (String × TickerTable)

/-- The shared tail of both fetch paths, after drop_duplicates: the rows where
both cells are missing are run through fix_empty_values (an identity, as both
cells are already missing), dropna(how="all", axis=1) drops a column made
entirely of missing values — making the final [ticker, name] selection fail
with a KeyError — then dropna(how="all", axis=0) drops the rows with both
cells missing, and astype(str) renders the remaining cells (a missing
read_html cell is a float NaN and prints as "nan"). -/
def finalizePairs (pairs : List (Cell × Cell)) :
    Except String (List (String × String)) :=
  let fixed := pairs.map (fun p =>
    if p.1.isNone && p.2.isNone then (cleanCell p.1, cleanCell p.2) else p)
  if fixed.all (fun p => p.1.isNone) || fixed.all (fun p => p.2.isNone) then
    .error "KeyError: columns ticker, name not found"
  else
    .ok (((fixed.filter (fun p => !(p.1.isNone && p.2.isNone))).map
      (fun p => (cellToStr p.1, cellToStr p.2))))

/-- The non-paginated branch: one request, take the first table, lowercase the
columns, rename company to name for private companies, require the key
columns, select them, drop duplicate symbols, finalize. -/
def nonPaginatedFetch (segment : String) (pages : ℕ → List RawTable) :
    Except String (List (String × String) × ℕ) :=
  match pages 0 with
  | [] => .error ("No tables found for " ++ segment)
  | t :: _ =>
    let t1 := lowerCols t
    let t2 := if segment = "private_companies_tickers" then
        renameCol t1 "company" "name" else t1
    if hasKeyCols t2 then
      match finalizePairs (dedupFirst (fun p => p.1) (selectPairs t2)) with
      | .error e => .error e
      | .ok df => .ok (df, 1)
    else
      .error ("Expected columns [symbol, name] not found for tickers "
        ++ segment)

/-- The pagination loop: one request per iteration; stop on a response with no
table, a table without the key columns, a page empty after filtering symbols
already seen (compared after astype(str)), or a page shorter than
paginate_records.  Returns the kept page tables and the number of requests
issued; the fuel argument is the remaining page budget. -/
def paginateLoop (pages : ℕ → List RawTable) (paginateRecords : ℕ) :
    ℕ → ℕ → List String → List (List (Cell × Cell)) × ℕ
  | 0, _, _ => ([], 0)
  | fuel + 1, i, seen =>
    match pages i with
    | [] => ([], 1)
    | t :: _ =>
      let t1 := lowerCols t
      if hasKeyCols t1 then
        let pairs := (selectPairs t1).filter
          (fun p => !(seen.contains (cellToStr p.1)))
        if pairs.isEmpty then ([], 1)
        else if pairs.length < paginateRecords then ([pairs], 1)
        else
          let next := paginateLoop pages paginateRecords fuel (i + 1)
            (seen ++ pairs.map (fun p => cellToStr p.1))
          (pairs :: next.1, next.2 + 1)
      else ([], 1)

/-- The paginated branch: run the loop, fail when no page was kept, otherwise
concatenate the pages, drop duplicate symbols (first kept) and finalize. -/
def paginatedFetch (segment : String) (pages : ℕ → List RawTable)
    (paginateRecords maxPages : ℕ) :
    Except String (List (String × String) × ℕ) :=
  let res := paginateLoop pages paginateRecords maxPages 0 []
  if res.1.isEmpty then .error ("No data found for segment: " ++ segment)
  else
    match finalizePairs (dedupFirst (fun p => p.1) res.1.flatten) with
    | .error e => .error e
    | .ok df => .ok (df, res.2)

/-- The url_map of fetch_yahoo_tickers. -/
def url_map : List (String × String) :=
  [("world_indices_tickers", "https://finance.yahoo.com/markets/world-indices/"),
   ("futures_tickers", "https://finance.yahoo.com/markets/commodities/"),
   ("bonds_tickers", "https://finance.yahoo.com/markets/bonds/"),
   ("forex_tickers", "https://finance.yahoo.com/markets/currencies/"),
   ("options_tickers", "https://finance.yahoo.com/markets/options/most-active/?start={start}&count={count}"),
   ("stock_tickers", "https://finance.yahoo.com/markets/stocks/most-active/?start={start}&count={count}"),
   ("crypto_tickers", "https://finance.yahoo.com/markets/crypto/all/?start={start}&count={count}"),
   ("private_companies_tickers", "https://finance.yahoo.com/markets/private-companies/highest-valuation/"),
   ("etf_tickers", "https://finance.yahoo.com/markets/etfs/most-active/"),
   ("mutual_fund_tickers", "https://finance.yahoo.com/markets/mutualfunds/gainers/?start={start}&count={count}")]

/-- The default_url_map of fetch_yahoo_tickers (the URL used by the
non-paginated branch). -/
def default_url_map : List (String × String) :=
  [("world_indices_tickers", "https://finance.yahoo.com/markets/world-indices/"),
   ("futures_tickers", "https://finance.yahoo.com/markets/commodities/"),
   ("bonds_tickers", "https://finance.yahoo.com/markets/bonds/"),
   ("forex_tickers", "https://finance.yahoo.com/markets/currencies/"),
   ("options_tickers", "https://finance.yahoo.com/markets/options/most-active/"),
   ("stock_tickers", "https://finance.yahoo.com/markets/stocks/most-active/"),
   ("crypto_tickers", "https://finance.yahoo.com/markets/crypto/all/"),
   ("private_companies_tickers", "https://finance.yahoo.com/markets/private-companies/highest-valuation/"),
   ("etf_tickers", "https://finance.yahoo.com/markets/etfs/most-active/?start={start}&count={count}"),
   ("mutual_fund_tickers", "https://finance.yahoo.com/markets/mutualfunds/")]

/-- fetch_yahoo_tickers: reject unknown segments, answer from the memory cache
when possible, otherwise fetch (paginating exactly when the url_map entry
contains a start placeholder) and store the successful result in the cache. -/
def fetch_yahoo_tickers (cache : Cache) (segment : String)
    (pages : ℕ → List RawTable) (paginateRecords maxPages : ℕ) :
    Except String (TickerTable × Cache × ℕ) :=
  match List.lookup segment url_map, List.lookup segment default_url_map with
  | some baseUrl, some _ =>
    match List.lookup segment cache with
    | some df => .ok (df, cache, 0)
    | none =>
      match (if strContains baseUrl "{start}" then
          paginatedFetch segment pages paginateRecords maxPages
        else nonPaginatedFetch segment pages) with
      | .error e => .error e
      | .ok (df, n) => .ok (df, (segment, df) :: cache, n)
  | _, _ => .error ("Unknown segment: " ++ segment)

theorem fetch_yahoo_tickers_cached (cache : Cache) (segment : String)
    (pages : ℕ → List RawTable) (pr mp : ℕ) (u d : String) (df : TickerTable)
    (hu : List.lookup segment url_map = some u)
    (hd : List.lookup segment default_url_map = some d)
    (hc : List.lookup segment cache = some df) :
    fetch_yahoo_tickers cache segment pages pr mp = .ok (df, cache, 0) := by
  unfold fetch_yahoo_tickers
  rw [hu, hd, hc]

/-- Claim C9: for a segment already present in the memory cache (and known to
the url maps), fetch_yahoo_tickers returns the cached table, leaves the cache
unchanged and issues no request; and after any successful call, a second call
with the same segment is answered from the resulting cache with no request. -/
theorem claim_c9_cache (cache : Cache) (segment : String)
    (pages pages2 : ℕ → List RawTable) (pr mp pr2 mp2 : ℕ) :
    (∀ u d df, List.lookup segment url_map = some u →
      List.lookup segment default_url_map = some d →
      List.lookup segment cache = some df →
      fetch_yahoo_tickers cache segment pages pr mp = .ok (df, cache, 0)) ∧
    (∀ res cache' n,
      fetch_yahoo_tickers cache segment pages pr mp = .ok (res, cache', n) →
      fetch_yahoo_tickers cache' segment pages2 pr2 mp2 =
        .ok (res, cache', 0)) := by
  constructor
  · intro u d df hu hd hc
    exact fetch_yahoo_tickers_cached cache segment pages pr mp u d df hu hd hc
  · intro res cache' n h
    unfold fetch_yahoo_tickers at h
    cases hu : List.lookup segment url_map with
    | none => rw [hu] at h; exact absurd h (by simp)
    | some u =>
      cases hd : List.lookup segment default_url_map with
      | none => rw [hu, hd] at h; exact absurd h (by simp)
      | some d =>
        rw [hu, hd] at h
        cases hc : List.lookup segment cache with
        | some df =>
          rw [hc] at h
          have hdf : df = res ∧ cache = cache' := by
            have := h
            simp only [Except.ok.injEq, Prod.mk.injEq] at this
            exact ⟨this.1, this.2.1⟩
          exact fetch_yahoo_tickers_cached cache' segment pages2 pr2 mp2 u d
            res hu hd (by rw [← hdf.2, hc, hdf.1])
        | none =>
          rw [hc] at h
          dsimp only at h
          cases hf : (if strContains u "{start}" then
              paginatedFetch segment pages pr mp
            else nonPaginatedFetch segment pages) with
          | error e => rw [hf] at h; exact absurd h (by simp)
          | ok p =>
            rw [hf] at h
            have hres : p.1 = res ∧ (segment, p.1) :: cache = cache' := by
              have := h
              simp only [Except.ok.injEq, Prod.mk.injEq] at this
              exact ⟨this.1, this.2.1⟩
            refine fetch_yahoo_tickers_cached cache' segment pages2 pr2 mp2 u d
              res hu hd ?_
            rw [← hres.2, ← hres.1]
            simp [List.lookup]

/-- Cache state for the C9 witness: stock_tickers is already cached. -/
def c9Cache : Cache := [("stock_tickers", [("AAPL", "Apple Inc.")])]

/-- Claim C9 witness: with stock_tickers cached, the call is answered from the
cache with no request, and so is a repeated call on the resulting cache. -/
theorem claim_c9_witness :
    fetch_yahoo_tickers c9Cache "stock_tickers" (fun _ => []) 200 50000 =
      .ok ([("AAPL", "Apple Inc.")], c9Cache, 0) ∧
    fetch_yahoo_tickers c9Cache "stock_tickers" (fun _ => []) 200 50000 =
      .ok ([("AAPL", "Apple Inc.")], c9Cache, 0) := by
  have h := claim_c9_cache c9Cache "stock_tickers" (fun _ => []) (fun _ => [])
    200 50000 200 50000
  have h1 := h.1
    "https://finance.yahoo.com/markets/stocks/most-active/?start={start}&count={count}"
    "https://finance.yahoo.com/markets/stocks/most-active/"
    [("AAPL", "Apple Inc.")] rfl rfl rfl
  exact ⟨h1, h.2 [("AAPL", "Apple Inc.")] c9Cache 0 h1⟩

/-!  Reachable read_html parses.  The fetcher parses every response with
pd.read_html under its defaults, where keep_default_na=True converts the
default NA strings (nan, NaN, None, the empty string, ...) into missing
cells before the fetcher ever sees the table.  A parsed table therefore never
holds one of these texts as a string cell, which makes astype(str) injective
on the cell values that can actually occur: the only string rendering of a
missing cell, "nan", belongs to no reachable string cell. -/

/-- The pandas default NA strings (STR_NA_VALUES), converted to missing cells
by read_html under keep_default_na=True. -/
def pandasNaStrings : List String :=
  ["", "#N/A", "#N/A N/A", "#NA", "-1.#IND", "-1.#QNAN", "-NaN", "-nan",
   "1.#IND", "1.#QNAN", "<NA>", "N/A", "NA", "NULL", "NaN", "None", "n/a",
   "nan", "null"]

/-- A cell as read_html can actually produce it: a string cell is never one
of the default NA strings, those having been converted to missing. -/
def cellFromReadHtml (c : Cell) : Prop :=
  ∀ s, c = some s → s ∉ pandasNaStrings

/-- A pages oracle all of whose responses are real read_html parses. -/
def pagesFromReadHtml (pages : ℕ → List RawTable) : Prop :=
  ∀ i, ∀ t ∈ pages i, ∀ row ∈ t.rows, ∀ c ∈ row, cellFromReadHtml c

theorem cellToStr_injOn (c1 c2 : Cell) (h1 : cellFromReadHtml c1)
    (h2 : cellFromReadHtml c2) (he : cellToStr c1 = cellToStr c2) :
    c1 = c2 := by
  cases c1 with
  | none =>
    cases c2 with
    | none => rfl
    | some s =>
      exfalso
      apply h2 s rfl
      have hsn : s = "nan" := by simpa [cellToStr] using he.symm
      rw [hsn]
      decide
  | some s1 =>
    cases c2 with
    | none =>
      exfalso
      apply h1 s1 rfl
      have hsn : s1 = "nan" := by simpa [cellToStr] using he
      rw [hsn]
      decide
    | some s2 =>
      have hss : s1 = s2 := by simpa [cellToStr] using he
      rw [hss]

theorem getD_cellOk : ∀ (row : List Cell),
    (∀ c ∈ row, cellFromReadHtml c) → ∀ n : ℕ,
      cellFromReadHtml (row.getD n none) := by
  intro row
  induction row with
  | nil =>
    intro _ n s hs
    simp [List.getD] at hs
  | cons c cs ih =>
    intro h n
    cases n with
    | zero =>
      simpa [List.getD] using h c (List.mem_cons_self c cs)
    | succ m =>
      simpa [List.getD] using
        ih (fun c' hc' => h c' (List.mem_cons_of_mem _ hc')) m

theorem selectPairs_fst_ok (t : RawTable)
    (h : ∀ row ∈ t.rows, ∀ c ∈ row, cellFromReadHtml c) :
    ∀ p ∈ selectPairs t, cellFromReadHtml p.1 := by
  intro p hp
  unfold selectPairs at hp
  rcases List.mem_map.mp hp with ⟨row, hrow, rfl⟩
  exact getD_cellOk row (h row hrow) _

theorem finalizePairs_nodup (pairs : List (Cell × Cell))
    (hok : ∀ p ∈ pairs, cellFromReadHtml p.1)
    (hnd : (pairs.map Prod.fst).Nodup) (tbl : List (String × String))
    (hfin : finalizePairs pairs = .ok tbl) :
    (tbl.map Prod.fst).Nodup := by
  have hfn : ∀ p : Cell × Cell,
      (if p.1.isNone && p.2.isNone then (cleanCell p.1, cleanCell p.2)
       else p) = p := by
    rintro ⟨c1, c2⟩
    cases c1 <;> cases c2 <;> simp [cleanCell]
  have hfix : pairs.map (fun p : Cell × Cell =>
      if p.1.isNone && p.2.isNone then (cleanCell p.1, cleanCell p.2)
      else p) = pairs := by
    have h2 : (fun p : Cell × Cell =>
        if p.1.isNone && p.2.isNone then (cleanCell p.1, cleanCell p.2)
        else p) = id := funext hfn
    rw [h2, List.map_id]
  simp only [finalizePairs] at hfin
  rw [hfix] at hfin
  by_cases hcol : (pairs.all (fun p => p.1.isNone) ||
      pairs.all (fun p => p.2.isNone)) = true
  · rw [if_pos hcol] at hfin
    exact absurd hfin (by simp)
  · rw [if_neg hcol] at hfin
    have htbl : (pairs.filter (fun p => !(p.1.isNone && p.2.isNone))).map
        (fun p => (cellToStr p.1, cellToStr p.2)) = tbl := by
      have hthis := hfin
      simp only [Except.ok.injEq] at hthis
      exact hthis
    rw [← htbl, List.map_map]
    have hre : (Prod.fst ∘ fun p : Cell × Cell =>
        (cellToStr p.1, cellToStr p.2)) =
        fun p : Cell × Cell => cellToStr p.1 := rfl
    rw [hre]
    have hsub : ((pairs.filter
        (fun p => !(p.1.isNone && p.2.isNone))).map Prod.fst).Sublist
        (pairs.map Prod.fst) :=
      (List.filter_sublist _).map Prod.fst
    have hnd2 : ((pairs.filter
        (fun p => !(p.1.isNone && p.2.isNone))).map Prod.fst).Nodup :=
      hnd.sublist hsub
    have hcomp : (fun p : Cell × Cell => cellToStr p.1) =
        cellToStr ∘ Prod.fst := rfl
    rw [hcomp, ← List.map_map]
    apply List.Nodup.map_on ?_ hnd2
    intro c1 hc1 c2 hc2 he
    rcases List.mem_map.mp hc1 with ⟨p1, hp1, rfl⟩
    rcases List.mem_map.mp hc2 with ⟨p2, hp2, rfl⟩
    exact cellToStr_injOn _ _ (hok p1 (List.mem_of_mem_filter hp1))
      (hok p2 (List.mem_of_mem_filter hp2)) he

theorem paginateLoop_count_le (pages : ℕ → List RawTable) (pagRec : ℕ) :
    ∀ (fuel i : ℕ) (seen : List String),
      (paginateLoop pages pagRec fuel i seen).2 ≤ fuel := by
  intro fuel
  induction fuel with
  | zero => intro i seen; simp [paginateLoop]
  | succ fuel ih =>
    intro i seen
    simp only [paginateLoop]
    cases hpg : pages i with
    | nil => dsimp only; omega
    | cons t rest =>
      dsimp only
      by_cases hk : hasKeyCols (lowerCols t) = true
      · rw [if_pos hk]
        by_cases hemp : ((selectPairs (lowerCols t)).filter
            (fun p => !(seen.contains (cellToStr p.1)))).isEmpty = true
        · rw [if_pos hemp]
          dsimp only
          omega
        · rw [if_neg hemp]
          by_cases hlen : ((selectPairs (lowerCols t)).filter
              (fun p => !(seen.contains (cellToStr p.1)))).length < pagRec
          · rw [if_pos hlen]
            dsimp only
            omega
          · rw [if_neg hlen]
            dsimp only
            have hrec := ih (i + 1) (seen ++ ((selectPairs
              (lowerCols t)).filter (fun p =>
                !(seen.contains (cellToStr p.1)))).map
              (fun p => cellToStr p.1))
            omega
      · rw [if_neg hk]
        dsimp only
        omega

theorem paginateLoop_pairs_ok (pages : ℕ → List RawTable) (pagRec : ℕ)
    (hna : pagesFromReadHtml pages) :
    ∀ (fuel i : ℕ) (seen : List String),
      ∀ P ∈ (paginateLoop pages pagRec fuel i seen).1,
        ∀ p ∈ P, cellFromReadHtml p.1 := by
  intro fuel
  induction fuel with
  | zero => intro i seen P hP; simp [paginateLoop] at hP
  | succ fuel ih =>
    intro i seen P hP
    simp only [paginateLoop] at hP
    cases hpg : pages i with
    | nil =>
      rw [hpg] at hP
      simp at hP
    | cons t rest =>
      rw [hpg] at hP
      dsimp only at hP
      have hpok : ∀ p ∈ (selectPairs (lowerCols t)).filter
          (fun p => !(seen.contains (cellToStr p.1))),
          cellFromReadHtml p.1 := by
        intro p hp
        have hp2 : p ∈ selectPairs (lowerCols t) :=
          List.mem_of_mem_filter hp
        have hrows : ∀ row ∈ (lowerCols t).rows, ∀ c ∈ row,
            cellFromReadHtml c := by
          intro row hrow c hcell
          exact hna i t (by rw [hpg]; exact List.mem_cons_self t rest)
            row hrow c hcell
        exact selectPairs_fst_ok (lowerCols t) hrows p hp2
      by_cases hk : hasKeyCols (lowerCols t) = true
      · rw [if_pos hk] at hP
        by_cases hemp : ((selectPairs (lowerCols t)).filter
            (fun p => !(seen.contains (cellToStr p.1)))).isEmpty = true
        · rw [if_pos hemp] at hP
          simp at hP
        · rw [if_neg hemp] at hP
          by_cases hlen : ((selectPairs (lowerCols t)).filter
              (fun p => !(seen.contains (cellToStr p.1)))).length < pagRec
          · rw [if_pos hlen] at hP
            simp only [List.mem_singleton] at hP
            subst hP
            exact hpok
          · rw [if_neg hlen] at hP
            simp only [List.mem_cons] at hP
            rcases hP with rfl | hP
            · exact hpok
            · exact ih (i + 1) _ P hP
      · rw [if_neg hk] at hP
        simp at hP

theorem nonPaginatedFetch_nodup (segment : String)
    (pages : ℕ → List RawTable) (hna : pagesFromReadHtml pages)
    (df : List (String × String)) (n : ℕ)
    (h : nonPaginatedFetch segment pages = .ok (df, n)) :
    (df.map Prod.fst).Nodup := by
  unfold nonPaginatedFetch at h
  cases hpg : pages 0 with
  | nil =>
    rw [hpg] at h
    exact absurd h (by simp)
  | cons t rest =>
    rw [hpg] at h
    dsimp only at h
    by_cases hk : hasKeyCols (if segment = "private_companies_tickers" then
        renameCol (lowerCols t) "company" "name" else lowerCols t) = true
    · rw [if_pos hk] at h
      cases hf : finalizePairs (dedupFirst (fun p => p.1) (selectPairs
          (if segment = "private_companies_tickers" then
            renameCol (lowerCols t) "company" "name"
          else lowerCols t))) with
      | error e =>
        rw [hf] at h
        exact absurd h (by simp)
      | ok tbl =>
        rw [hf] at h
        have htbl : tbl = df := by
          have hthis := h
          simp only [Except.ok.injEq, Prod.mk.injEq] at hthis
          exact hthis.1
        rw [← htbl]
        have hrows : ∀ row ∈ (if segment = "private_companies_tickers" then
            renameCol (lowerCols t) "company" "name"
          else lowerCols t).rows, ∀ c ∈ row, cellFromReadHtml c := by
          intro row hrow c hcell
          have hr2 : row ∈ t.rows := by
            by_cases hs : segment = "private_companies_tickers" <;>
              simpa [hs, renameCol, lowerCols] using hrow
          exact hna 0 t (by rw [hpg]; exact List.mem_cons_self t rest)
            row hr2 c hcell
        apply finalizePairs_nodup _ ?_ ?_ tbl hf
        · intro p hp
          exact selectPairs_fst_ok _ hrows p
            (mem_of_mem_dedupFirst (fun p => p.1) _ p hp)
        · exact keys_nodup_dedupFirst (fun p : Cell × Cell => p.1) _
    · rw [if_neg hk] at h
      exact absurd h (by simp)

theorem paginatedFetch_nodup (segment : String)
    (pages : ℕ → List RawTable) (pagRec maxPages : ℕ)
    (hna : pagesFromReadHtml pages) (df : List (String × String)) (n : ℕ)
    (h : paginatedFetch segment pages pagRec maxPages = .ok (df, n)) :
    (df.map Prod.fst).Nodup := by
  simp only [paginatedFetch] at h
  by_cases he : (paginateLoop pages pagRec maxPages 0 []).1.isEmpty = true
  · rw [if_pos he] at h
    exact absurd h (by simp)
  · rw [if_neg he] at h
    cases hf : finalizePairs (dedupFirst (fun p => p.1)
        (paginateLoop pages pagRec maxPages 0 []).1.flatten) with
    | error e =>
      rw [hf] at h
      exact absurd h (by simp)
    | ok tbl =>
      rw [hf] at h
      have htbl : tbl = df := by
        have hthis := h
        simp only [Except.ok.injEq, Prod.mk.injEq] at hthis
        exact hthis.1
      rw [← htbl]
      apply finalizePairs_nodup _ ?_ ?_ tbl hf
      · intro p hp
        have hpf := mem_of_mem_dedupFirst (fun p => p.1) _ p hp
        rcases List.mem_flatten.mp hpf with ⟨P, hP, hpP⟩
        exact paginateLoop_pairs_ok pages pagRec hna maxPages 0 [] P hP p hpP
      · exact keys_nodup_dedupFirst (fun p : Cell × Cell => p.1) _

/-- Claim C2: for every sequence of upstream responses that pd.read_html can
actually produce (keep_default_na converts the default NA strings, nan and
None included, to missing cells before the fetcher sees them), one invocation
of fetch_yahoo_tickers runs the pagination loop for at most max_pages
iterations, stops early when a response has no table, when the table lacks
the symbol/name columns, when a page is empty after filtering already-seen
symbols, or when the filtered page is shorter than paginate_records, and the
table it returns when the segment is not already cached contains no duplicate
ticker value. -/
theorem claim_c2_pagination (cache : Cache) (segment : String)
    (pages : ℕ → List RawTable) (pagRec maxPages : ℕ)
    (hna : pagesFromReadHtml pages)
    (hc : List.lookup segment cache = none) :
    (∀ i seen, (paginateLoop pages pagRec maxPages i seen).2 ≤ maxPages) ∧
    (∀ fuel i seen, pages i = [] →
      paginateLoop pages pagRec (fuel + 1) i seen = ([], 1)) ∧
    (∀ fuel i seen t rest, pages i = t :: rest →
      hasKeyCols (lowerCols t) = false →
      paginateLoop pages pagRec (fuel + 1) i seen = ([], 1)) ∧
    (∀ fuel i seen t rest, pages i = t :: rest →
      ((selectPairs (lowerCols t)).filter
        (fun p => !(seen.contains (cellToStr p.1)))).isEmpty = true →
      paginateLoop pages pagRec (fuel + 1) i seen = ([], 1)) ∧
    (∀ fuel i seen t rest, pages i = t :: rest →
      hasKeyCols (lowerCols t) = true →
      ((selectPairs (lowerCols t)).filter
        (fun p => !(seen.contains (cellToStr p.1)))).isEmpty = false →
      ((selectPairs (lowerCols t)).filter
        (fun p => !(seen.contains (cellToStr p.1)))).length < pagRec →
      paginateLoop pages pagRec (fuel + 1) i seen =
        ([(selectPairs (lowerCols t)).filter
          (fun p => !(seen.contains (cellToStr p.1)))], 1)) ∧
    (∀ tbl cache' n,
      fetch_yahoo_tickers cache segment pages pagRec maxPages =
        .ok (tbl, cache', n) →
      (tbl.map Prod.fst).Nodup) := by
  refine ⟨fun i seen => paginateLoop_count_le pages pagRec maxPages i seen,
    ?_, ?_, ?_, ?_, ?_⟩
  · intro fuel i seen hpg
    simp only [paginateLoop]
    rw [hpg]
  · intro fuel i seen t rest hpg hk
    simp only [paginateLoop]
    rw [hpg]
    dsimp only
    rw [if_neg (by simp [hk])]
  · intro fuel i seen t rest hpg hemp
    simp only [paginateLoop]
    rw [hpg]
    dsimp only
    by_cases hk : hasKeyCols (lowerCols t) = true
    · rw [if_pos hk, if_pos hemp]
    · rw [if_neg hk]
  · intro fuel i seen t rest hpg hk hemp hlen
    simp only [paginateLoop]
    rw [hpg]
    dsimp only
    rw [if_pos hk, if_neg (by rw [hemp]; exact Bool.false_ne_true),
      if_pos hlen]
  · intro tbl cache' n h
    unfold fetch_yahoo_tickers at h
    cases hu : List.lookup segment url_map with
    | none =>
      rw [hu] at h
      exact absurd h (by simp)
    | some u =>
      cases hd : List.lookup segment default_url_map with
      | none =>
        rw [hu, hd] at h
        exact absurd h (by simp)
      | some d =>
        rw [hu, hd, hc] at h
        dsimp only at h
        cases hb : strContains u "{start}" with
        | true =>
          rw [if_pos hb] at h
          cases hf : paginatedFetch segment pages pagRec maxPages with
          | error e =>
            rw [hf] at h
            exact absurd h (by simp)
          | ok p =>
            obtain ⟨pdf, pn⟩ := p
            rw [hf] at h
            have hinj := h
            simp only [Except.ok.injEq, Prod.mk.injEq] at hinj
            rw [← hinj.1]
            exact paginatedFetch_nodup segment pages pagRec maxPages hna
              pdf pn hf
        | false =>
          rw [if_neg (by simp [hb])] at h
          cases hf : nonPaginatedFetch segment pages with
          | error e =>
            rw [hf] at h
            exact absurd h (by simp)
          | ok p =>
            obtain ⟨pdf, pn⟩ := p
            rw [hf] at h
            have hinj := h
            simp only [Except.ok.injEq, Prod.mk.injEq] at hinj
            rw [← hinj.1]
            exact nonPaginatedFetch_nodup segment pages hna pdf pn hf

/-- Upstream pages for the C2 witness: every request parses to one table with
the symbol/name columns and two ordinary rows, a parse read_html can produce
(no default NA string appears as a cell value). -/
def c2WitnessPages : ℕ → List RawTable := fun _ =>
  [{ cols := ["Symbol", "Name"],
     rows := [[some "AAPL", some "Apple"], [some "MSFT", some "Microsoft"]] }]

theorem c2WitnessPages_ok : pagesFromReadHtml c2WitnessPages := by
  intro i t ht row hrow c hcell s hs
  simp only [c2WitnessPages, List.mem_singleton] at ht
  subst ht
  subst hs
  simp at hrow
  rcases hrow with rfl | rfl <;> simp at hcell <;>
    rcases hcell with rfl | rfl <;> decide

/-- Claim C2 witness: on a concrete reachable two-row page the loop issues
one request (within the max_pages budget 50000), the fetch succeeds after the
short-page stop, and the returned table has no duplicate ticker. -/
theorem claim_c2_witness :
    (paginateLoop c2WitnessPages 200 50000 0 []).2 ≤ 50000 ∧
    fetch_yahoo_tickers [] "stock_tickers" c2WitnessPages 200 50000 =
      .ok ([("AAPL", "Apple"), ("MSFT", "Microsoft")],
        [("stock_tickers", [("AAPL", "Apple"), ("MSFT", "Microsoft")])], 1) ∧
    (([("AAPL", "Apple"), ("MSFT", "Microsoft")] : TickerTable).map
      Prod.fst).Nodup := by
  have h := claim_c2_pagination [] "stock_tickers" c2WitnessPages 200 50000
    c2WitnessPages_ok rfl
  have hfetch : fetch_yahoo_tickers [] "stock_tickers" c2WitnessPages 200
      50000 = .ok ([("AAPL", "Apple"), ("MSFT", "Microsoft")],
        [("stock_tickers", [("AAPL", "Apple"), ("MSFT", "Microsoft")])], 1) :=
    rfl
  exact ⟨h.1 0 [], hfetch,
    h.2.2.2.2.2 [("AAPL", "Apple"), ("MSFT", "Microsoft")]
      [("stock_tickers", [("AAPL", "Apple"), ("MSFT", "Microsoft")])] 1
      hfetch⟩

/-!  TickerFetcher.fetch_all_tickers (helpers.py lines 228-286).  The ten
segment fetches and the supplementary PyTickerSymbols fetch are oracles that
either yield a table or fail; every failure is caught and logged by the
orchestrator.  The per-source processing inside each try block and the final
fusion are modelled from the source. -/

/-- One row of a table returned by fetch_yahoo_tickers: ticker and name are
strings, astype(str) having already happened there. -/
structure FetchedRow where
  ticker : String
  name : String
deriving DecidableEq

/-- The relevant part of one row of the fetch_pts_tickers table: the ticker
and name columns, both possibly missing. -/
structure PtsRow where
  ticker : Cell
  name : Cell
deriving DecidableEq

/-- The fixed segment list iterated by fetch_all_tickers, in order. -/
def yahooSegments : List String :=
  ["stock_tickers", "crypto_tickers", "forex_tickers", "etf_tickers",
   "mutual_fund_tickers", "world_indices_tickers", "futures_tickers",
   "bonds_tickers", "options_tickers", "private_companies_tickers"]

/-- The per-segment processing inside the try of fetch_all_tickers: attach the
segment label (tables from fetch_yahoo_tickers carry no segment column),
select [ticker, name, segment], drop duplicate full rows keeping the first,
then fix_empty_values with ticker excluded: nan-like name strings become
missing; the fixed segment labels are never nan-like; the closing astype(str)
on ticker is the identity on these strings. -/
def processSegment (segment : String) (rows : List FetchedRow) : List Record :=
  let recs := rows.map (fun r =>
    ({ ticker := r.ticker, name := some r.name, segment := segment } : Record))
  (dedupFirst (fun r => r) recs).map
    (fun r => { r with name := cleanCell r.name })

/-- The pts processing inside the try of fetch_all_tickers: segment :=
_guess_segment(ticker) (a missing ticker is not a str, hence unknown), select
[ticker, name, segment], drop_duplicates(subset=[ticker, segment]) keeping the
first, fix_empty_values with ticker excluded, then ticker astype(str), where
str(None) = "None" on this object column. -/
def processPts (rows : List PtsRow) : List Record :=
  let recs := rows.map (fun r => (r.ticker, r.name, guessSegmentCell r.ticker))
  let deduped := dedupFirst (fun x => (x.1, x.2.2)) recs
  let fixed := deduped.map (fun x => (x.1, cleanCell x.2.1, x.2.2))
  fixed.map (fun x =>
    { ticker := cellToStrObj x.1, name := x.2.1, segment := x.2.2 })

/-- Boolean success test on a source outcome. -/
def isOkB {ε α : Type} (e : Except ε α) : Bool :=
  match e with
  | .ok _ => true
  | .error _ => false

/-- The concatenation step of fetch_all_tickers: the processed tables of the
succeeding segment fetches in the fixed segment order, then the processed
supplementary pts table. -/
def concatAll (fetchSeg : String → Except String (List FetchedRow))
    (pts : Except String (List PtsRow)) : List Record :=
  (yahooSegments.map (fun seg =>
    match fetchSeg seg with
    | .ok rows => processSegment seg rows
    | .error _ => [])).flatten ++
  (match pts with
   | .ok rows => processPts rows
   | .error _ => [])

/-- fetch_all_tickers: fetch every segment, catching per-segment failures;
fetch the supplementary pts source, catching its failure; when anything was
fetched, concatenate and drop duplicate tickers keeping the first occurrence,
else return the empty list. -/
def fetch_all_tickers (fetchSeg : String → Except String (List FetchedRow))
    (pts : Except String (List PtsRow)) : List Record :=
  if (yahooSegments.any (fun seg => isOkB (fetchSeg seg)) || isOkB pts) = true
  then dedupFirst (fun r => r.ticker) (concatAll fetchSeg pts)
  else []

/-- Concrete sources for the fusion claims: stock_tickers and crypto_tickers
succeed, both providing AAPL (with different names), every other segment
fails. -/
def exFetchSeg : String → Except String (List FetchedRow) := fun s =>
  if s = "stock_tickers" then .ok [{ ticker := "AAPL", name := "Apple" }]
  else if s = "crypto_tickers" then
    .ok [{ ticker := "AAPL", name := "ApplCoin" }]
  else .error "source unavailable"

/-- Concrete supplementary source for the fusion claims: it fails. -/
def exPts : Except String (List PtsRow) := .error "source unavailable"

theorem ticker_mem_processSegment (segment : String) (rows : List FetchedRow)
    (r : FetchedRow) (hr : r ∈ rows) :
    ∃ rec, rec ∈ processSegment segment rows ∧ rec.ticker = r.ticker := by
  unfold processSegment
  have hmem :
      ({ ticker := r.ticker, name := some r.name, segment := segment } :
        Record) ∈ rows.map (fun r =>
          ({ ticker := r.ticker, name := some r.name, segment := segment } :
            Record)) :=
    List.mem_map.mpr ⟨r, hr, rfl⟩
  rcases exists_mem_dedupFirst (fun x => x) _ _ hmem with ⟨y, hy, hkey⟩
  refine ⟨{ y with name := cleanCell y.name },
    List.mem_map.mpr ⟨y, hy, rfl⟩, ?_⟩
  have : y = { ticker := r.ticker, name := some r.name, segment := segment } :=
    hkey
  rw [this]

theorem ticker_mem_processPts (rows : List PtsRow) (r : PtsRow)
    (hr : r ∈ rows) :
    ∃ rec, rec ∈ processPts rows ∧ rec.ticker = cellToStrObj r.ticker := by
  unfold processPts
  have hmem : (r.ticker, r.name, guessSegmentCell r.ticker) ∈
      rows.map (fun r => (r.ticker, r.name, guessSegmentCell r.ticker)) :=
    List.mem_map.mpr ⟨r, hr, rfl⟩
  rcases exists_mem_dedupFirst (fun x => (x.1, x.2.2)) _ _ hmem with
    ⟨y, hy, hkey⟩
  have h1 : y.1 = r.ticker := by
    have := congrArg Prod.fst hkey
    simpa using this
  refine ⟨{ ticker := cellToStrObj y.1, name := cleanCell y.2.1,
            segment := y.2.2 }, ?_, by rw [h1]⟩
  apply List.mem_map.mpr
  exact ⟨(y.1, cleanCell y.2.1, y.2.2), List.mem_map.mpr ⟨y, hy, rfl⟩, rfl⟩

theorem mem_concatAll_of_segment
    (fetchSeg : String → Except String (List FetchedRow))
    (pts : Except String (List PtsRow)) (seg : String)
    (hseg : seg ∈ yahooSegments) (rows : List FetchedRow)
    (hok : fetchSeg seg = .ok rows) (rec : Record)
    (hrec : rec ∈ processSegment seg rows) :
    rec ∈ concatAll fetchSeg pts := by
  unfold concatAll
  apply List.mem_append_left
  apply List.mem_flatten.mpr
  refine ⟨processSegment seg rows, ?_, hrec⟩
  apply List.mem_map.mpr
  refine ⟨seg, hseg, ?_⟩
  rw [hok]

theorem mem_concatAll_of_pts
    (fetchSeg : String → Except String (List FetchedRow))
    (pts : Except String (List PtsRow)) (rows : List PtsRow)
    (hok : pts = .ok rows) (rec : Record) (hrec : rec ∈ processPts rows) :
    rec ∈ concatAll fetchSeg pts := by
  unfold concatAll
  apply List.mem_append_right
  rw [hok]
  exact hrec

theorem ticker_mem_fetch_all
    (fetchSeg : String → Except String (List FetchedRow))
    (pts : Except String (List PtsRow))
    (hok : (yahooSegments.any (fun seg => isOkB (fetchSeg seg)) || isOkB pts)
      = true)
    (x : Record) (hx : x ∈ concatAll fetchSeg pts) :
    ∃ rec, rec ∈ fetch_all_tickers fetchSeg pts ∧ rec.ticker = x.ticker := by
  unfold fetch_all_tickers
  rw [if_pos hok]
  exact exists_mem_dedupFirst (fun r => r.ticker) _ x hx

theorem anyOk_of_segment
    (fetchSeg : String → Except String (List FetchedRow))
    (pts : Except String (List PtsRow)) (seg : String)
    (hseg : seg ∈ yahooSegments) (rows : List FetchedRow)
    (hok : fetchSeg seg = .ok rows) :
    (yahooSegments.any (fun s => isOkB (fetchSeg s)) || isOkB pts) = true := by
  have h1 : yahooSegments.any (fun s => isOkB (fetchSeg s)) = true := by
    apply List.any_eq_true.mpr
    refine ⟨seg, hseg, ?_⟩
    rw [hok]
    rfl
  rw [h1, Bool.true_or]

/-- Claim C3, counterexample: the crypto_tickers source succeeds with an AAPL
record, yet that record does not appear in the returned list: the global dedup
keeps only the first record per ticker, here the one of stock_tickers.
Records of non-failing sources can therefore be absent from the result. -/
theorem claim_c3_counterexample :
    exFetchSeg "crypto_tickers" =
      .ok [{ ticker := "AAPL", name := "ApplCoin" }] ∧
    ({ ticker := "AAPL", name := some "ApplCoin",
       segment := "crypto_tickers" } : Record) ∉
      fetch_all_tickers exFetchSeg exPts := by
  constructor
  · rfl
  · decide

/-- Claim C3, amended: fetch_all_tickers never propagates a source failure:
each failing source is caught and skipped; every non-failing source still
contributes, in that each ticker value of each of its rows appears on some
record of the returned list (the record kept for a duplicated ticker being
the first in iteration order); and when every source fails the empty list is
returned. -/
theorem claim_c3_fault_isolation
    (fetchSeg : String → Except String (List FetchedRow))
    (pts : Except String (List PtsRow)) :
    (∀ seg ∈ yahooSegments, ∀ rows, fetchSeg seg = .ok rows →
      ∀ r ∈ rows, ∃ rec, rec ∈ fetch_all_tickers fetchSeg pts ∧
        rec.ticker = r.ticker) ∧
    (∀ rows, pts = .ok rows →
      ∀ r ∈ rows, ∃ rec, rec ∈ fetch_all_tickers fetchSeg pts ∧
        rec.ticker = cellToStrObj r.ticker) ∧
    ((∀ seg ∈ yahooSegments, ∃ e, fetchSeg seg = .error e) →
      (∃ e, pts = .error e) → fetch_all_tickers fetchSeg pts = []) := by
  refine ⟨?_, ?_, ?_⟩
  · intro seg hseg rows hok r hr
    rcases ticker_mem_processSegment seg rows r hr with ⟨rec, hrec, hticker⟩
    rcases ticker_mem_fetch_all fetchSeg pts
      (anyOk_of_segment fetchSeg pts seg hseg rows hok) rec
      (mem_concatAll_of_segment fetchSeg pts seg hseg rows hok rec hrec) with
      ⟨rec2, hrec2, ht2⟩
    exact ⟨rec2, hrec2, by rw [ht2, hticker]⟩
  · intro rows hok r hr
    have hany : (yahooSegments.any (fun s => isOkB (fetchSeg s)) || isOkB pts)
        = true := by
      have h2 : isOkB pts = true := by rw [hok]; rfl
      rw [h2, Bool.or_true]
    rcases ticker_mem_processPts rows r hr with ⟨rec, hrec, hticker⟩
    rcases ticker_mem_fetch_all fetchSeg pts hany rec
      (mem_concatAll_of_pts fetchSeg pts rows hok rec hrec) with
      ⟨rec2, hrec2, ht2⟩
    exact ⟨rec2, hrec2, by rw [ht2, hticker]⟩
  · intro hseg hpts
    unfold fetch_all_tickers
    rw [if_neg]
    intro hok
    rw [Bool.or_eq_true] at hok
    rcases hok with h1 | h2
    · rcases List.any_eq_true.mp h1 with ⟨seg, hmem, htrue⟩
      rcases hseg seg hmem with ⟨e, he⟩
      rw [he] at htrue
      exact absurd htrue (by simp [isOkB])
    · rcases hpts with ⟨e, he⟩
      rw [he] at h2
      exact absurd h2 (by simp [isOkB])

/-- Claim C3 witness: on the concrete sources exFetchSeg and exPts, the ticker
of the successful stock_tickers row appears in the fused result. -/
theorem claim_c3_witness :
    (fetch_all_tickers exFetchSeg exPts).any
      (fun rec => decide (rec.ticker = "AAPL")) = true := by
  rcases (claim_c3_fault_isolation exFetchSeg exPts).1 "stock_tickers"
    (by decide) [{ ticker := "AAPL", name := "Apple" }] rfl
    { ticker := "AAPL", name := "Apple" } (by decide) with ⟨rec, hmem, ht⟩
  apply List.any_eq_true.mpr
  refine ⟨rec, hmem, ?_⟩
  rw [ht]
  rfl

/-- Claim C4: within one invocation of fetch_all_tickers, the record kept for
a ticker is the first occurrence in iteration order of the concatenated
processed sources — the configured segment list in order, then the
supplementary pts source — so name and segment come from the first source
providing the ticker, and the fused result retains exactly one record for
that ticker. -/
theorem claim_c4_first_wins
    (fetchSeg : String → Except String (List FetchedRow))
    (pts : Except String (List PtsRow)) (r : Record)
    (hr : r ∈ fetch_all_tickers fetchSeg pts) :
    (concatAll fetchSeg pts).find?
      (fun x => decide (x.ticker = r.ticker)) = some r ∧
    ∀ r2 ∈ fetch_all_tickers fetchSeg pts, r2.ticker = r.ticker → r2 = r := by
  have hfind : ∀ r3 ∈ fetch_all_tickers fetchSeg pts,
      (concatAll fetchSeg pts).find?
        (fun x => decide (x.ticker = r3.ticker)) = some r3 := by
    intro r3 hr3
    unfold fetch_all_tickers at hr3
    by_cases hok : (yahooSegments.any (fun seg => isOkB (fetchSeg seg)) ||
        isOkB pts) = true
    · rw [if_pos hok] at hr3
      exact find?_of_mem_dedupFirst (fun x => x.ticker) _ r3 hr3
    · rw [if_neg hok] at hr3
      exact absurd hr3 (by simp)
  refine ⟨hfind r hr, ?_⟩
  intro r2 hr2 ht
  have h2 := hfind r2 hr2
  rw [ht] at h2
  have h1 := hfind r hr
  rw [h1] at h2
  exact (Option.some.inj h2).symm

/-- Claim C4 witness: with stock_tickers and crypto_tickers both providing
AAPL, the record in the fused result is the first occurrence (from
stock_tickers) in the concatenation. -/
theorem claim_c4_witness :
    (concatAll exFetchSeg exPts).find?
      (fun x => decide (x.ticker =
        ({ ticker := "AAPL", name := some "Apple",
           segment := "stock_tickers" } : Record).ticker)) =
      some { ticker := "AAPL", name := some "Apple",
             segment := "stock_tickers" } := by
  exact (claim_c4_first_wins exFetchSeg exPts _ (by decide)).1

/-- Claim C5, counterexample: stock_tickers (iterated first) and
crypto_tickers (iterated later) both provide AAPL; the fused result keeps the
record of the FIRST source, not the last, so last-source-wins is false. -/
theorem claim_c5_counterexample :
    fetch_all_tickers exFetchSeg exPts =
      [{ ticker := "AAPL", name := some "Apple",
         segment := "stock_tickers" }] ∧
    ({ ticker := "AAPL", name := some "Apple",
       segment := "stock_tickers" } : Record) ≠
      { ticker := "AAPL", name := some "ApplCoin",
        segment := "crypto_tickers" } := by
  constructor
  · decide
  · decide

/-- Claim C5, amended: within the fused result of fetch_all_tickers the ticker
field is unique; on conflict the record kept is the one of the FIRST source in
iteration order (the configured segment list followed by the supplementary
source), as established for claim C4. -/
theorem claim_c5_ticker_unique
    (fetchSeg : String → Except String (List FetchedRow))
    (pts : Except String (List PtsRow)) :
    ((fetch_all_tickers fetchSeg pts).map Record.ticker).Nodup := by
  unfold fetch_all_tickers
  by_cases hok : (yahooSegments.any (fun seg => isOkB (fetchSeg seg)) ||
      isOkB pts) = true
  · rw [if_pos hok]
    exact keys_nodup_dedupFirst Record.ticker (concatAll fetchSeg pts)
  · rw [if_neg hok]
    simp

end TapYahooQuery
